import Mathlib

/-!
Verification of the segmented training loop of `train.py`
(`Trainer._calc_loss`, `Trainer.train`, `Trainer.validate`).

Tensors of rationals replace float tensors; a `V` value is either a finite
rational (`V.num`) or a non-finite float (`V.nonfin`, collapsing IEEE
NaN/Inf, which arise from division by a zero length).  A sample is the
`channels × time` list of its values.  Python exceptions that the claims
mention are modelled by `PyErr`.
-/

namespace DWT

/-- A float value: finite rational, or the non-finite marker (NaN/Inf). -/
inductive V where
  | num (q : ℚ)
  | nonfin
deriving DecidableEq

/-- Elementwise float addition: any non-finite operand poisons the sum. -/
def vadd : V → V → V
  | V.num a, V.num b => V.num (a + b)
  | _, _ => V.nonfin

/-- Multiplication by a (finite) weight. -/
def vmul (w : ℚ) : V → V
  | V.num a => V.num (w * a)
  | V.nonfin => V.nonfin

/-- Division of a float by an integer: division by `0` is non-finite
(`0/0` is NaN, `q/0` is `±Inf`), mirroring numpy/torch semantics that do
not raise on zero division. -/
def vdivZ : V → ℤ → V
  | V.num a, d => if d = 0 then V.nonfin else V.num (a / d)
  | V.nonfin, _ => V.nonfin

/-- In-place accumulation `loss[i] += term` starting from `torch.zeros`. -/
def vsum (l : List V) : V := l.foldl vadd (V.num 0)

/-- One sample of a batch: channels × time. -/
abbrev Sample := List (List ℚ)

/-- Python slice `ch[:T]` on the time axis, including negative `T`
(which counts from the end) — no exception for out-of-range bounds. -/
def pyTake (T : ℤ) (l : List ℚ) : List ℚ :=
  if 0 ≤ T then l.take T.toNat else l.take (l.length - (-T).toNat)

/-- `tensor[..., :T]` on a sample. -/
def sliceTime (T : ℤ) (s : Sample) : Sample := s.map (pyTake T)

/-- An elementwise criterion (e.g. L1: `|a-b|`, MSE: `(a-b)^2`);
the configured criteria use `reduction='sum'`. -/
abbrev Crit := ℚ → ℚ → ℚ

/-- L1Loss with sum reduction, elementwise part. -/
def l1 (a b : ℚ) : ℚ := |a - b|

/-- Sum-reduced criterion over one sample pair. -/
def critSample (f : Crit) (out y : Sample) : ℚ :=
  (List.zipWith (fun oc yc => (List.zipWith f oc yc).sum) out y).sum

/-- Sum-reduced criterion over a whole batch (`criterion(output, y)`). -/
def critBatch (f : Crit) (out y : List Sample) : ℚ :=
  (List.zipWith (critSample f) out y).sum

/-- The terms of the ragged path's inner loop
`for T, item_y, item_out in zip(T_ys, y, output):
   loss[i] += criterion(item_out[..., :T], item_y[..., :T]) / int(T)`;
`zip` truncates to the shortest input. -/
def raggedTerms (f : Crit) : List ℤ → List Sample → List Sample → List V
  | T :: Ts, iy :: ys, io :: os =>
      vdivZ (V.num (critSample f (sliceTime T io) (sliceTime T iy))) T ::
        raggedTerms f Ts ys os
  | _, _, _ => []

/-- Fast-path entry
`loss[i] = hp.weight_loss[i] * criterion(output, y) / T_ys[0]`,
skipped (left at the `torch.zeros` value) when the weight is `0`. -/
def fastEntry (y output : List Sample) (T0 : ℤ) (cw : Crit × ℚ) : V :=
  if cw.2 = 0 then V.num 0
  else vdivZ (V.num (cw.2 * critBatch cw.1 output y)) T0

/-- Ragged-path entry: per-sample sliced losses accumulated then
`loss[i] *= hp.weight_loss[i]`, skipped when the weight is `0`. -/
def raggedEntry (y output : List Sample) (T_ys : List ℤ) (cw : Crit × ℚ) : V :=
  if cw.2 = 0 then V.num 0
  else vmul cw.2 (vsum (raggedTerms cw.1 T_ys y output))

/-- The fast path of `Trainer._calc_loss` (uniform `T_ys`). -/
def fastPath (cws : List (Crit × ℚ)) (y output : List Sample) (T0 : ℤ) : List V :=
  cws.map (fastEntry y output T0)

/-- The ragged path of `Trainer._calc_loss`. -/
def raggedPath (cws : List (Crit × ℚ)) (y output : List Sample) (T_ys : List ℤ) :
    List V :=
  cws.map (raggedEntry y output T_ys)

/-- `Trainer._calc_loss(y, output, T_ys)`.  `cws` pairs each criterion
with its configured weight (`zip(self.criterions, hp.weight_loss)`).
`none` models the `IndexError` of `T_ys[0]` on an empty `T_ys`; the
branch test is `(T_ys == T_ys[0]).all()`. -/
def calc_loss (cws : List (Crit × ℚ)) (y output : List Sample) (T_ys : List ℤ) :
    Option (List V) :=
  match T_ys with
  | [] => none
  | T0 :: _ =>
    if T_ys.all (fun T => T == T0) then some (fastPath cws y output T0)
    else some (raggedPath cws y output T_ys)

/-! ## The per-batch window loop of `Trainer.train` -/

/-- Python exceptions relevant to the claims. -/
inductive PyErr where
  | indexError
  | attributeError
deriving DecidableEq

/-- The outcome of a Python computation: a value, or a raised exception. -/
inductive PyResult (α : Type) where
  | ok (val : α)
  | raise (e : PyErr)
deriving DecidableEq

/-- The inputs of one training batch: the model (an external black box),
the weighted criteria, the batch tensors `x`, `y` (already normalized),
the valid lengths `T_ys`, the padded time extent `Ttot = y.shape[-1]`,
and the hyperparameters `hp.l_target`, `hp.l_input`. -/
structure BatchIn where
  model : List Sample → List Sample
  cws : List (Crit × ℚ)
  x : List Sample
  y : List Sample
  T_ys : List ℤ
  Ttot : ℕ
  lT : ℕ
  lI : ℕ

/-- The loop state and bookkeeping after processing a batch's windows. -/
structure BatchOut where
  iFirst : ℕ
  lossT : Option (List V)
  modelCalls : ℕ
  optSteps : ℕ
  trace : List (ℕ × ℕ)
  raised : Bool
deriving DecidableEq

/-- The loop `while i_first < N and t >= T_ys[i_first]: i_first += 1`,
with an explicit iteration bound `fuel`: each iteration of the source loop
requires `i_first < N` and increments `i_first`, so the loop runs at most
`N - i_first` times and `advanceIFirst` below supplies exactly that. -/
def advanceFuel (T_ys : List ℤ) (N : ℕ) (t : ℤ) : ℕ → ℕ → ℕ
  | 0, i => i
  | fuel + 1, i =>
    if i < N ∧ T_ys.getD i 0 ≤ t then advanceFuel T_ys N t fuel (i + 1) else i

/-- `while i_first < y.shape[0] and t >= T_ys[i_first]: i_first += 1`. -/
def advanceIFirst (T_ys : List ℤ) (N : ℕ) (t : ℤ) (i : ℕ) : ℕ :=
  advanceFuel T_ys N t (N - i) i

/-- `d[:, :, t : t+l]` on an already batch-sliced tensor. -/
def segOfT (t l : ℕ) (d : List Sample) : List Sample :=
  d.map (fun s => s.map (fun ch => (ch.drop t).take l))

/-- `np.clip(arr, a_min=None, a_max=hi)`: only the upper bound clips. -/
def npClipMax (hi : ℤ) (a : List ℤ) : List ℤ :=
  a.map (fun v => if hi < v then hi else v)

/-- `seg_T_ys = np.clip(T_ys[i_first:] - t, a_min=None, a_max=hp.l_target)`
applied to the active slice of `T_ys`. -/
def segTys (T_ys : List ℤ) (t : ℕ) (lT : ℕ) : List ℤ :=
  npClipMax lT (T_ys.map (fun T => T - (t : ℤ)))

/-- One iteration of `for t in range(0, y.shape[-1], hp.l_target)`.
Returns the new state and whether the loop continues;  it stops on the
`seg_y.shape[-1] < 5` break and when `_calc_loss` raises. -/
def stepWindow (B : BatchIn) (st : BatchOut) (t : ℕ) : BatchOut × Bool :=
  let i := advanceIFirst B.T_ys B.y.length (t : ℤ) st.iFirst
  let ext := min B.lT (B.Ttot - t)
  if ext < 5 then
    ({ st with iFirst := i, trace := st.trace ++ [(t, i)] }, false)
  else
    let segY := segOfT t B.lT (B.y.drop i)
    let segX := segOfT t B.lI (B.x.drop i)
    let segT := segTys (B.T_ys.drop i) t B.lT
    let out := (B.model segX).map (fun s => s.map (fun ch => ch.take ext))
    match calc_loss B.cws segY out segT with
    | none =>
        ({ st with iFirst := i, trace := st.trace ++ [(t, i)],
                   modelCalls := st.modelCalls + 1, raised := true }, false)
    | some l =>
        ({ st with iFirst := i, trace := st.trace ++ [(t, i)],
                   modelCalls := st.modelCalls + 1, optSteps := st.optSteps + 1,
                   lossT := some l }, true)

/-- The window loop over the remaining window starts. -/
def runWindows (B : BatchIn) : List ℕ → BatchOut → BatchOut
  | [], st => st
  | t :: ts, st =>
    match stepWindow B st t with
    | (st', true) => runWindows B ts st'
    | (st', false) => st'

/-- The window starts `range(0, Ttot, lT)` (empty when `lT = 0`,
where Python would raise instead). -/
def windowStarts (Ttot lT : ℕ) : List ℕ :=
  List.range' 0 ((Ttot + lT - 1) / lT) lT

/-- State at entry of the batch loop: `i_first = 0`, `loss_t = None`. -/
def initBatchOut : BatchOut :=
  { iFirst := 0, lossT := none, modelCalls := 0, optSteps := 0,
    trace := [], raised := false }

/-- The post-loop progress-report line
`loss_t_last_np = loss_t.cpu().numpy() / len(T_ys)` on the final loop
state: `loss_t = None` there is the `AttributeError` of `None.cpu()`;
an `IndexError` escaping `_calc_loss` propagates first. -/
def reportStep (st : BatchOut) (nT : ℕ) : PyResult (BatchOut × List V) :=
  if st.raised then .raise PyErr.indexError
  else
    match st.lossT with
    | none => .raise PyErr.attributeError
    | some l => .ok (st, l.map (fun v => vdivZ v (nT : ℤ)))

/-- The window loop followed by the report step, with the full `len(T_ys)`. -/
def processBatch (B : BatchIn) : PyResult (BatchOut × List V) :=
  reportStep (runWindows B (windowStarts B.Ttot B.lT) initBatchOut) B.T_ys.length

/-! ## The epoch-level running loss accumulator of `Trainer.train` -/

/-- The reported per-epoch averages produced by
`avg_loss = torch.zeros(...)` (once, before the epoch loop),
`avg_loss += loss_t` per window and the in-place `avg_loss /= n_train_data`
at each epoch end: the divided value stays in the accumulator.  `sums` is
the sum of window losses of each epoch (one criterion slot). -/
def epochReportsFrom (n : ℚ) : ℚ → List ℚ → List ℚ
  | _, [] => []
  | acc, S :: rest => ((acc + S) / n) :: epochReportsFrom n ((acc + S) / n) rest

/-- The reported averages of a whole training run. -/
def trainReports (n : ℚ) (sums : List ℚ) : List ℚ := epochReportsFrom n 0 sums

/-! ## The model-mode flow of `Trainer.validate` -/

/-- `model.train()` / `model.eval()` mode. -/
inductive Mode where
  | train
  | eval
deriving DecidableEq

/-- `Trainer.validate`'s mode handling: `self.model.eval()` first, then
the validation body (which may raise), then `self.model.train()` — which
is NOT protected by any `try/finally`, so it only runs on the normal
path; an exception leaves the model in eval mode.  Returns the model's
mode when control returns to the caller, with the body's outcome. -/
def validateModeFlow (body : Mode → PyResult Unit) : Mode × PyResult Unit :=
  let m := Mode.eval
  match body m with
  | .ok _ => (Mode.train, .ok ())
  | .raise e => (m, .raise e)

/-! ## Concrete example batches (one output channel, padded length 10) -/

/-- Ten zero timesteps. -/
def zeros10 : List ℚ := List.replicate 10 0

/-- Ten one-valued timesteps. -/
def ones10 : List ℚ := List.replicate 10 1

/-- A batch with ascending lengths `[4, 10]`, `l_target = l_input = 5`,
identity model, all-zero input, targets `zeros` and `ones`. -/
def exampleAsc : BatchIn :=
  { model := fun s => s
    cws := [(l1, 1)]
    x := [[zeros10], [zeros10]]
    y := [[zeros10], [ones10]]
    T_ys := [4, 10]
    Ttot := 10
    lT := 5
    lI := 5 }

/-- The batch of the spec's worked example: descending `T_ys = [10, 4]`,
`l_target = 4`. -/
def exampleDesc : BatchIn :=
  { model := fun s => s
    cws := [(l1, 1)]
    x := [[zeros10], [zeros10]]
    y := [[ones10], [zeros10]]
    T_ys := [10, 4]
    Ttot := 10
    lT := 4
    lI := 4 }

/-- A single-sample batch whose first window is already degenerate
(`l_target = 4 < 5`). -/
def exampleShort : BatchIn :=
  { model := fun s => s
    cws := [(l1, 1)]
    x := [[zeros10]]
    y := [[zeros10]]
    T_ys := [10]
    Ttot := 10
    lT := 4
    lI := 4 }

/-- The loop state `runWindows` reaches on `exampleAsc`: two windows
processed, the second with only the length-10 sample active, and the last
window's loss `[1]` (five `|0 - 1|` terms divided by the clipped length 5). -/
def ascOut : BatchOut :=
  { iFirst := 1, lossT := some [V.num 1], modelCalls := 2, optSteps := 2,
    trace := [(0, 0), (5, 1)], raised := false }

/-! ## Helper lemmas -/

lemma clip_eq_min (hi v : ℤ) : (if hi < v then hi else v) = min v hi := by
  rcases le_or_lt v hi with h | h
  · rw [if_neg (not_lt.mpr h), min_eq_left h]
  · rw [if_pos h, min_eq_right h.le]

lemma pyTake_of_le (T : ℤ) (l : List ℚ) (h : (l.length : ℤ) ≤ T) : pyTake T l = l := by
  have h0 : 0 ≤ T := le_trans (Int.natCast_nonneg l.length) h
  rw [pyTake, if_pos h0]
  exact List.take_of_length_le (by omega)

lemma sliceTime_of_le (T : ℤ) (s : Sample) (h : ∀ ch ∈ s, (ch.length : ℤ) ≤ T) :
    sliceTime T s = s := by
  rw [sliceTime]
  conv_rhs => rw [← List.map_id s]
  exact List.map_congr_left (fun ch hch => pyTake_of_le T ch (h ch hch))

lemma vadd_num_num (a b : ℚ) : vadd (V.num a) (V.num b) = V.num (a + b) := rfl

lemma foldl_vadd_num (l : List ℚ) :
    ∀ a : ℚ, (l.map V.num).foldl vadd (V.num a) = V.num (a + l.sum) := by
  induction l with
  | nil => intro a; simp
  | cons q l ih =>
    intro a
    simp only [List.map_cons, List.foldl_cons, vadd_num_num, ih, List.sum_cons]
    rw [add_assoc]

lemma vsum_map_num (l : List ℚ) : vsum (l.map V.num) = V.num l.sum := by
  rw [vsum, foldl_vadd_num, zero_add]

lemma sum_map_div (l : List ℚ) (b : ℚ) :
    (l.map (fun q => q / b)).sum = l.sum / b := by
  induction l with
  | nil => simp
  | cons q l ih => simp [ih, add_div]

lemma raggedTerms_eq (f : Crit) (T0 : ℤ) :
    ∀ (Ts : List ℤ) (ys os : List Sample),
      (∀ T ∈ Ts, T = T0) → Ts.length = ys.length → Ts.length = os.length →
      (∀ s ∈ ys, ∀ ch ∈ s, (ch.length : ℤ) ≤ T0) →
      (∀ s ∈ os, ∀ ch ∈ s, (ch.length : ℤ) ≤ T0) →
      raggedTerms f Ts ys os
        = (List.zipWith (critSample f) os ys).map (fun S => vdivZ (V.num S) T0) := by
  intro Ts
  induction Ts with
  | nil =>
    intro ys os _ hly hlo _ _
    have hys : ys = [] := List.length_eq_zero.mp hly.symm
    have hos : os = [] := List.length_eq_zero.mp hlo.symm
    subst hys; subst hos; rfl
  | cons T Ts ih =>
    intro ys os huni hly hlo hcy hco
    cases ys with
    | nil => exact absurd hly (by simp)
    | cons iy ys =>
      cases os with
      | nil => exact absurd hlo (by simp)
      | cons io os =>
        have hT : T = T0 := huni T (List.mem_cons_self T Ts)
        rw [raggedTerms, List.zipWith_cons_cons, List.map_cons]
        rw [hT, sliceTime_of_le T0 io (hco io (List.mem_cons_self io os)),
            sliceTime_of_le T0 iy (hcy iy (List.mem_cons_self iy ys))]
        congr 1
        exact ih ys os (fun T' hT' => huni T' (List.mem_cons_of_mem T hT'))
          (by simpa using hly) (by simpa using hlo)
          (fun s hs => hcy s (List.mem_cons_of_mem iy hs))
          (fun s hs => hco s (List.mem_cons_of_mem io hs))

lemma raggedEntry_eq_fastEntry (y output : List Sample) (T_ys : List ℤ) (T0 : ℤ)
    (cw : Crit × ℚ) (hpos : 0 < T0) (huni : ∀ T ∈ T_ys, T = T0)
    (hly : T_ys.length = y.length) (hlo : T_ys.length = output.length)
    (hcy : ∀ s ∈ y, ∀ ch ∈ s, (ch.length : ℤ) ≤ T0)
    (hco : ∀ s ∈ output, ∀ ch ∈ s, (ch.length : ℤ) ≤ T0) :
    raggedEntry y output T_ys cw = fastEntry y output T0 cw := by
  rw [raggedEntry, fastEntry]
  by_cases hw : cw.2 = 0
  · rw [if_pos hw, if_pos hw]
  · rw [if_neg hw, if_neg hw]
    have hT0 : T0 ≠ 0 := hpos.ne'
    rw [raggedTerms_eq cw.1 T0 T_ys y output huni hly hlo hcy hco]
    have hdiv : ∀ S : ℚ, vdivZ (V.num S) T0 = V.num (S / (T0 : ℚ)) := by
      intro S
      rw [vdivZ, if_neg hT0]
    calc vmul cw.2 (vsum ((List.zipWith (critSample cw.1) output y).map
            (fun S => vdivZ (V.num S) T0)))
        = vmul cw.2 (vsum (((List.zipWith (critSample cw.1) output y).map
            (fun S => S / (T0 : ℚ))).map V.num)) := by
          rw [List.map_map]
          congr 1
          congr 1
          exact List.map_congr_left (fun S _ => hdiv S)
      _ = V.num (cw.2 * (critBatch cw.1 output y / (T0 : ℚ))) := by
          rw [vsum_map_num, sum_map_div, vmul, critBatch]
      _ = vdivZ (V.num (cw.2 * critBatch cw.1 output y)) T0 := by
          rw [vdivZ, if_neg hT0, mul_div_assoc]

lemma map_entry_at {α β : Type _} (ent : α → β) (pre post : List α) (c : α) :
    ((pre ++ c :: post).map ent)[pre.length]? = some (ent c) := by
  rw [List.map_append, List.map_cons]
  rw [List.getElem?_append_right (by simp)]
  simp

lemma advanceFuel_prefix (T : List ℤ) (N : ℕ) (t : ℤ) (fuel : ℕ) :
    ∀ i : ℕ, (∀ j < i, T.getD j 0 ≤ t) →
      ∀ j < advanceFuel T N t fuel i, T.getD j 0 ≤ t := by
  induction fuel with
  | zero => intro i hpre j hj; exact hpre j hj
  | succ fuel ih =>
    intro i hpre j hj
    simp only [advanceFuel] at hj
    split at hj
    case isTrue h =>
      refine ih (i + 1) ?_ j hj
      intro j' hj'
      rcases Nat.lt_succ_iff_lt_or_eq.mp hj' with h' | h'
      · exact hpre j' h'
      · rw [h']; exact h.2
    case isFalse h => exact hpre j hj

lemma advanceFuel_stop (T : List ℤ) (N : ℕ) (t : ℤ) (fuel : ℕ) :
    ∀ i : ℕ, N ≤ i + fuel →
      ¬ (advanceFuel T N t fuel i < N ∧ T.getD (advanceFuel T N t fuel i) 0 ≤ t) := by
  induction fuel with
  | zero =>
    intro i hN h
    simp only [advanceFuel] at h
    omega
  | succ fuel ih =>
    intro i hN
    simp only [advanceFuel]
    split
    case isTrue h => exact ih (i + 1) (by omega)
    case isFalse h => exact h

lemma advanceIFirst_prefix (T : List ℤ) (N : ℕ) (t : ℤ) (i : ℕ)
    (hpre : ∀ j < i, T.getD j 0 ≤ t) :
    ∀ j < advanceIFirst T N t i, T.getD j 0 ≤ t :=
  advanceFuel_prefix T N t (N - i) i hpre

lemma advanceIFirst_stop (T : List ℤ) (N : ℕ) (t : ℤ) (i : ℕ) :
    ¬ (advanceIFirst T N t i < N ∧ T.getD (advanceIFirst T N t i) 0 ≤ t) :=
  advanceFuel_stop T N t (N - i) i (by omega)

lemma getD_mono_of_sorted (T : List ℤ) (hs : T.Pairwise (· ≤ ·)) {a j : ℕ}
    (hab : a ≤ j) (hj : j < T.length) : T.getD a 0 ≤ T.getD j 0 := by
  rcases eq_or_lt_of_le hab with h | h
  · rw [h]
  · have ha : a < T.length := lt_trans h hj
    rw [List.getD_eq_getElem T 0 ha, List.getD_eq_getElem T 0 hj]
    exact List.pairwise_iff_getElem.mp hs a j ha hj h

lemma advanceIFirst_suffix (T : List ℤ) (N : ℕ) (t : ℤ) (i : ℕ)
    (hs : T.Pairwise (· ≤ ·)) (hN : N = T.length) :
    ∀ j, advanceIFirst T N t i ≤ j → j < T.length → t < T.getD j 0 := by
  intro j h1 h2
  have hstop := advanceIFirst_stop T N t i
  have ha : advanceIFirst T N t i < N := by omega
  have ht : t < T.getD (advanceIFirst T N t i) 0 := by
    by_contra hc
    push_neg at hc
    exact hstop ⟨ha, hc⟩
  exact lt_of_lt_of_le ht (getD_mono_of_sorted T hs h1 h2)

lemma stepWindow_iFirst_trace (B : BatchIn) (st : BatchOut) (t : ℕ) :
    (stepWindow B st t).1.iFirst
      = advanceIFirst B.T_ys B.y.length (t : ℤ) st.iFirst ∧
    (stepWindow B st t).1.trace
      = st.trace ++ [(t, advanceIFirst B.T_ys B.y.length (t : ℤ) st.iFirst)] := by
  simp only [stepWindow]
  split
  · exact ⟨rfl, rfl⟩
  · split <;> exact ⟨rfl, rfl⟩

lemma runWindows_break (B : BatchIn) (st : BatchOut) (t : ℕ) (ts : List ℕ)
    (h : min B.lT (B.Ttot - t) < 5) :
    runWindows B (t :: ts) st =
      { st with
        iFirst := advanceIFirst B.T_ys B.y.length (t : ℤ) st.iFirst,
        trace := st.trace ++
          [(t, advanceIFirst B.T_ys B.y.length (t : ℤ) st.iFirst)] } := by
  simp only [runWindows, stepWindow]
  rw [if_pos h]

lemma windowStarts_pairwise (Ttot lT : ℕ) :
    (windowStarts Ttot lT).Pairwise (· ≤ ·) := by
  rw [windowStarts]
  rcases Nat.eq_zero_or_pos lT with h | h
  · rw [h]
    simp
  · exact (List.pairwise_lt_range' 0 _ lT h).imp (fun hab => le_of_lt hab)

lemma runWindows_trace_inv (B : BatchIn)
    (hs : B.T_ys.Pairwise (· ≤ ·)) (hlen : B.T_ys.length = B.y.length) :
    ∀ (ts : List ℕ) (st : BatchOut),
      ts.Pairwise (· ≤ ·) →
      (∀ p ∈ st.trace,
        (∀ j < p.2, B.T_ys.getD j 0 ≤ (p.1 : ℤ)) ∧
        (∀ j, p.2 ≤ j → j < B.T_ys.length → (p.1 : ℤ) < B.T_ys.getD j 0)) →
      (∀ j t, j < st.iFirst → t ∈ ts → B.T_ys.getD j 0 ≤ (t : ℤ)) →
      ∀ p ∈ (runWindows B ts st).trace,
        (∀ j < p.2, B.T_ys.getD j 0 ≤ (p.1 : ℤ)) ∧
        (∀ j, p.2 ≤ j → j < B.T_ys.length → (p.1 : ℤ) < B.T_ys.getD j 0) := by
  intro ts
  induction ts with
  | nil => intro st _ htr _ p hp; exact htr p hp
  | cons t ts ih =>
    intro st hpw htr hcur
    have hset := stepWindow_iFirst_trace B st t
    have hpre : ∀ j < st.iFirst, B.T_ys.getD j 0 ≤ (t : ℤ) :=
      fun j hj => hcur j t hj (List.mem_cons_self t ts)
    have hnew1 : ∀ j < advanceIFirst B.T_ys B.y.length (t : ℤ) st.iFirst,
        B.T_ys.getD j 0 ≤ (t : ℤ) := advanceIFirst_prefix _ _ _ _ hpre
    have hnew2 : ∀ j, advanceIFirst B.T_ys B.y.length (t : ℤ) st.iFirst ≤ j →
        j < B.T_ys.length → (t : ℤ) < B.T_ys.getD j 0 :=
      advanceIFirst_suffix B.T_ys B.y.length (t : ℤ) st.iFirst hs hlen.symm
    obtain ⟨hhead, htail⟩ := List.pairwise_cons.mp hpw
    rcases hstep : stepWindow B st t with ⟨st', cont⟩
    rw [hstep] at hset
    simp only at hset
    simp only [runWindows, hstep]
    cases cont with
    | false =>
      intro p hp
      rw [hset.2] at hp
      rcases List.mem_append.mp hp with hold | hnew
      · exact htr p hold
      · rw [List.mem_singleton.mp hnew]
        exact ⟨hnew1, hnew2⟩
    | true =>
      refine ih st' htail ?_ ?_
      · intro p hp
        rw [hset.2] at hp
        rcases List.mem_append.mp hp with hold | hnew
        · exact htr p hold
        · rw [List.mem_singleton.mp hnew]
          exact ⟨hnew1, hnew2⟩
      · intro j t' hj ht'
        rw [hset.1] at hj
        calc B.T_ys.getD j 0 ≤ (t : ℤ) := hnew1 j hj
          _ ≤ (t' : ℤ) := by exact_mod_cast hhead t' ht'

/-! ## Claim theorems -/

/-- C3 (code evaluation at the failing input): the per-epoch accumulator is
initialized once before the epoch loop, so with `n_train_data = 1` a run
whose epoch sums are `[1, 0]` reports `[1, 1]` — the second epoch, with
exactly the same window losses as in the run `[0, 0]` (which reports
`[0, 0]`), reports `1` instead of `0`: the reported average does NOT
depend only on that epoch's window losses, refuting the claimed
reset-at-epoch-start. -/
theorem C3_accumulator_not_reset :
    trainReports 1 [1, 0] = [1, 1] ∧ trainReports 1 [0, 0] = [0, 0] := by
  constructor <;> norm_num [trainReports, epochReportsFrom]

/-- C7 counterexample: a body that raises mid-validation returns control
with the model still in evaluation mode — `model.train()` is not on the
exceptional path, so restoration is not guaranteed on every exit. -/
theorem C7_counterexample :
    validateModeFlow (fun _ => PyResult.raise PyErr.indexError)
      = (Mode.eval, PyResult.raise PyErr.indexError) ∧
    Mode.eval ≠ Mode.train :=
  ⟨rfl, by decide⟩

/-- C7 amended: validation puts the model into evaluation mode and
restores training mode on every NORMAL return; an exception mid-validation
propagates with the model left in evaluation mode (there is no
`try/finally`-style scoped guarantee). -/
theorem C7_mode_restored_on_ok (body : Mode → PyResult Unit)
    (h : (validateModeFlow body).2 = PyResult.ok ()) :
    (validateModeFlow body).1 = Mode.train := by
  simp only [validateModeFlow] at h ⊢
  cases hb : body Mode.eval with
  | ok u => rfl
  | raise e =>
    rw [hb] at h
    exact PyResult.noConfusion h

/-- Witness for C7: on a normally returning body, the model mode is
`train` when `validate` returns. -/
theorem C7_mode_restored_on_ok_witness :
    (validateModeFlow (fun _ => PyResult.ok ())).2 = PyResult.ok () ∧
    (validateModeFlow (fun _ => PyResult.ok ())).1 = Mode.train :=
  ⟨rfl, C7_mode_restored_on_ok (fun _ => PyResult.ok ()) rfl⟩

/-- C9: the clipped valid length computed by
`np.clip(T_ys - t, a_min=None, a_max=l_target)` equals
`min(T_ys[i] - t, l)` per sample, and is nonnegative for active samples
(`t < T_ys[i]`). -/
theorem C9_clipped_lengths (T_ys : List ℤ) (t lT : ℕ)
    (hact : ∀ T ∈ T_ys, (t : ℤ) < T) :
    segTys T_ys t lT = T_ys.map (fun T => min (T - (t : ℤ)) (lT : ℤ)) ∧
    ∀ v ∈ segTys T_ys t lT, 0 ≤ v := by
  have heq : segTys T_ys t lT
      = T_ys.map (fun T => min (T - (t : ℤ)) (lT : ℤ)) := by
    rw [segTys, npClipMax, List.map_map]
    exact List.map_congr_left (fun T _ => clip_eq_min _ _)
  refine ⟨heq, ?_⟩
  intro v hv
  rw [heq] at hv
  obtain ⟨T, hT, rfl⟩ := List.mem_map.mp hv
  have := hact T hT
  have h0 : (0 : ℤ) ≤ (lT : ℤ) := Int.natCast_nonneg lT
  omega

/-- Witness for C9 at `T_ys = [10, 4]`, `t = 3`, `l = 4`. -/
theorem C9_clipped_lengths_witness :
    (∀ T ∈ [(10 : ℤ), 4], ((3 : ℕ) : ℤ) < T) ∧
    (segTys [10, 4] 3 4 = ([10, 4] : List ℤ).map
        (fun T => min (T - ((3 : ℕ) : ℤ)) ((4 : ℕ) : ℤ)) ∧
      ∀ v ∈ segTys [10, 4] 3 4, 0 ≤ v) :=
  ⟨by decide, C9_clipped_lengths [10, 4] 3 4 (by decide)⟩

/-- C6 counterexample: `_calc_loss` does not raise in any of the claimed
error situations.  With `len(T_ys) = 1 ≠ 2 = batch size` it silently takes
the fast path over the full tensors; with a window length `0` it completes
and yields a non-finite (NaN) entry instead of raising; with a negative
window length it completes with an end-relative slice. -/
theorem C6_counterexample :
    calc_loss [(l1, 1)] [[[0, 0]], [[1, 1]]] [[[0, 0]], [[0, 0]]] [2]
      = some [V.num 1] ∧
    calc_loss [(l1, 1)] [[[0, 0]], [[1, 1]]] [[[0, 0]], [[0, 0]]] [0, 2]
      = some [V.nonfin] ∧
    calc_loss [(l1, 1)] [[[0, 0]], [[1, 1]]] [[[0, 0]], [[0, 0]]] [-1, 2]
      = some [V.num 1] := by
  refine ⟨?_, ?_, ?_⟩ <;>
    simp [calc_loss, fastPath, fastEntry, critBatch, raggedPath, raggedEntry,
      raggedTerms, critSample, l1, vdivZ, sliceTime, pyTake, vsum, vadd, vmul]

/-- C6 amended: `_calc_loss` never raises on a nonempty `T_ys` — it does
not validate `len(T_ys)` against the batch size (`zip` truncates, and the
fast path ignores the batch size entirely) and does not reject window
lengths `≤ 0` (a zero length produces a NaN entry, a negative length an
end-relative slice). -/
theorem C6_no_failure (cws : List (Crit × ℚ)) (y output : List Sample)
    (T_ys : List ℤ) (h : T_ys ≠ []) :
    (calc_loss cws y output T_ys).isSome = true := by
  cases T_ys with
  | nil => exact absurd rfl h
  | cons T0 rest =>
    simp only [calc_loss]
    split <;> rfl

/-- Witness for C6: the mismatched-length call completes. -/
theorem C6_no_failure_witness :
    (([2] : List ℤ) ≠ []) ∧
    (calc_loss [(l1, 1)] [[[0, 0]], [[1, 1]]] [[[0, 0]], [[0, 0]]]
      [2]).isSome = true :=
  ⟨by decide, C6_no_failure _ _ _ _ (by decide)⟩

/-- C4: a window whose target time extent `seg_y.shape[-1] =
min(l_target, T_max - t)` is below 5 ends the batch's window loop at once:
the loop returns with no model call, no optimizer step, no change to
`loss_t`, and no exception — only the cursor advance and the entered
window are recorded. -/
theorem C4_degenerate_window_stops (B : BatchIn) (st : BatchOut) (t : ℕ)
    (ts : List ℕ) (h : min B.lT (B.Ttot - t) < 5) :
    runWindows B (t :: ts) st =
      { st with
        iFirst := advanceIFirst B.T_ys B.y.length (t : ℤ) st.iFirst,
        trace := st.trace ++
          [(t, advanceIFirst B.T_ys B.y.length (t : ℤ) st.iFirst)] } :=
  runWindows_break B st t ts h

/-- Witness for C4 on a concrete batch (`l_target = 4 < 5` at `t = 8`):
the state is returned unchanged except for cursor and trace. -/
theorem C4_degenerate_window_stops_witness :
    min exampleShort.lT (exampleShort.Ttot - 8) < 5 ∧
    runWindows exampleShort [8] initBatchOut =
      { initBatchOut with
        iFirst := advanceIFirst exampleShort.T_ys exampleShort.y.length
          ((8 : ℕ) : ℤ) initBatchOut.iFirst,
        trace := initBatchOut.trace ++
          [(8, advanceIFirst exampleShort.T_ys exampleShort.y.length
            ((8 : ℕ) : ℤ) initBatchOut.iFirst)] } :=
  ⟨by decide, C4_degenerate_window_stops exampleShort initBatchOut 8 [] (by decide)⟩

/-- C8: a criterion with weight exactly `0` is skipped: the result of
`_calc_loss` does not depend on that criterion's function at all (it is
never invoked — replacing it by any other function `g` changes nothing),
and its slot in the returned LossVector is exactly `0`, on the fast and
the ragged path alike. -/
theorem C8_zero_weight_skipped (pre post : List (Crit × ℚ)) (f g : Crit)
    (y output : List Sample) (T_ys : List ℤ) :
    calc_loss (pre ++ (f, 0) :: post) y output T_ys
      = calc_loss (pre ++ (g, 0) :: post) y output T_ys ∧
    ∀ ls, calc_loss (pre ++ (f, 0) :: post) y output T_ys = some ls →
      ls[pre.length]? = some (V.num 0) := by
  have hfastF : ∀ (T0 : ℤ) (c : Crit), fastEntry y output T0 (c, 0) = V.num 0 := by
    intro T0 c
    rw [fastEntry, if_pos rfl]
  have hragF : ∀ (Ts : List ℤ) (c : Crit),
      raggedEntry y output Ts (c, 0) = V.num 0 := by
    intro Ts c
    rw [raggedEntry, if_pos rfl]
  cases T_ys with
  | nil => exact ⟨rfl, fun ls h => Option.noConfusion h⟩
  | cons T0 rest =>
    constructor
    · simp only [calc_loss]
      split
      · rw [Option.some.injEq, fastPath, fastPath, List.map_append,
            List.map_append, List.map_cons, List.map_cons, hfastF, hfastF]
      · rw [Option.some.injEq, raggedPath, raggedPath, List.map_append,
            List.map_append, List.map_cons, List.map_cons, hragF, hragF]
    · intro ls hls
      simp only [calc_loss] at hls
      split at hls
      · rw [Option.some.injEq] at hls
        subst hls
        rw [fastPath, map_entry_at, hfastF]
      · rw [Option.some.injEq] at hls
        subst hls
        rw [raggedPath, map_entry_at, hragF]

/-- Witness for C8: a zero-weighted L1 criterion can be replaced by a sum
criterion without changing the loss, and its slot is exactly `0`. -/
theorem C8_zero_weight_skipped_witness :
    calc_loss ([] ++ (l1, 0) :: []) [[[0, 0]]] [[[1, 1]]] [2]
      = calc_loss ([] ++ (fun a b : ℚ => a + b, 0) :: []) [[[0, 0]]] [[[1, 1]]] [2] ∧
    ([V.num 0] : List V)[(0 : ℕ)]? = some (V.num 0) :=
  ⟨(C8_zero_weight_skipped [] [] l1 (fun a b => a + b) [[[0, 0]]] [[[1, 1]]] [2]).1,
   (C8_zero_weight_skipped [] [] l1 (fun a b => a + b) [[[0, 0]]] [[[1, 1]]] [2]).2
     [V.num 0] (by simp [calc_loss, fastPath, fastEntry])⟩

/-- C2 counterexample: on the uniform batch `T_ys = [1]` with one sample
padded to time extent 2, `_calc_loss` takes the fast path, which
sum-reduces the criterion over the FULL tensor (`|1-0| + |1-0| = 2`,
including the region past the valid length 1) while the ragged path
slices to the valid length first (`|1-0| = 1`): the paths are not equal on
every uniform batch. -/
theorem C2_counterexample :
    calc_loss [(l1, 1)] [[[0, 0]]] [[[1, 1]]] [1]
      = some (fastPath [(l1, 1)] [[[0, 0]]] [[[1, 1]]] 1) ∧
    fastPath [(l1, 1)] [[[0, 0]]] [[[1, 1]]] 1
      ≠ raggedPath [(l1, 1)] [[[0, 0]]] [[[1, 1]]] [1] := by
  constructor
  · simp [calc_loss]
  · simp [fastPath, fastEntry, critBatch, critSample, raggedPath, raggedEntry,
      raggedTerms, sliceTime, pyTake, l1, vdivZ, vsum, vadd, vmul]

/-- C2 amended: the fast path and the ragged path agree on every uniform
batch whose common length is positive and covers the tensors' time extent
(i.e. no padding beyond the valid length — the situation this pipeline
produces, padding to the longest valid length); without the coverage
condition the fast path also sums the padded region and the paths differ. -/
theorem C2_uniform_paths_agree (cws : List (Crit × ℚ)) (y output : List Sample)
    (T_ys : List ℤ) (T0 : ℤ) (hne : T_ys ≠ []) (hpos : 0 < T0)
    (huni : ∀ T ∈ T_ys, T = T0)
    (hly : T_ys.length = y.length) (hlo : T_ys.length = output.length)
    (hcy : ∀ s ∈ y, ∀ ch ∈ s, (ch.length : ℤ) ≤ T0)
    (hco : ∀ s ∈ output, ∀ ch ∈ s, (ch.length : ℤ) ≤ T0) :
    raggedPath cws y output T_ys = fastPath cws y output T0 ∧
    calc_loss cws y output T_ys = some (fastPath cws y output T0) := by
  have hpath : raggedPath cws y output T_ys = fastPath cws y output T0 := by
    rw [raggedPath, fastPath]
    exact List.map_congr_left (fun cw _ =>
      raggedEntry_eq_fastEntry y output T_ys T0 cw hpos huni hly hlo hcy hco)
  refine ⟨hpath, ?_⟩
  cases T_ys with
  | nil => exact absurd rfl hne
  | cons T1 rest =>
    have hT1 : T1 = T0 := huni T1 (List.mem_cons_self T1 rest)
    simp only [calc_loss]
    rw [if_pos]
    · rw [hT1]
    · exact List.all_eq_true.mpr
        (fun T hT => beq_iff_eq.mpr (by rw [huni T hT, hT1]))

/-- Witness for C2 at a covered uniform batch. -/
theorem C2_uniform_paths_agree_witness :
    ((([2] : List ℤ) ≠ []) ∧ (0 : ℤ) < 2 ∧ (∀ T ∈ ([2] : List ℤ), T = 2)) ∧
    (raggedPath [(l1, 2)] [[[1, 2]]] [[[3, 5]]] [2]
        = fastPath [(l1, 2)] [[[1, 2]]] [[[3, 5]]] 2 ∧
      calc_loss [(l1, 2)] [[[1, 2]]] [[[3, 5]]] [2]
        = some (fastPath [(l1, 2)] [[[1, 2]]] [[[3, 5]]] 2)) :=
  ⟨⟨by decide, by decide, by decide⟩,
   C2_uniform_paths_agree [(l1, 2)] [[[1, 2]]] [[[3, 5]]] [2] 2 (by decide)
     (by decide) (by decide) (by decide) (by decide) (by decide) (by decide)⟩

/-- C5 counterexample: on `exampleAsc` the last window's sub-batch has one
active sample (`i_first = 1` of a batch of 2) and the last window's
LossVector is `[1]`, but the reported progress value is
`[1] / len(T_ys) = [1/2]` — the code divides by the FULL batch size, not
the shrunk sub-batch size `1` (which would give `[1]`). -/
theorem C5_counterexample :
    processBatch exampleAsc = PyResult.ok (ascOut, [V.num (1 / 2)]) ∧
    exampleAsc.y.length - ascOut.iFirst = 1 ∧
    ascOut.lossT = some [V.num 1] ∧
    [V.num (1 / 2)] ≠ ([V.num 1]).map
      (fun v => vdivZ v ((exampleAsc.y.length - ascOut.iFirst : ℕ) : ℤ)) := by
  refine ⟨?_, rfl, rfl, ?_⟩
  · simp [processBatch, reportStep, runWindows, stepWindow, advanceIFirst,
      advanceFuel, windowStarts, List.range', initBatchOut, segOfT, segTys,
      npClipMax, calc_loss, fastPath, fastEntry, raggedPath, raggedEntry,
      raggedTerms, critBatch, critSample, sliceTime, pyTake, l1, vdivZ, vsum,
      vadd, vmul, exampleAsc, zeros10, ones10, ascOut]
    norm_num
  · simp [vdivZ, exampleAsc, ascOut]

/-- C5 amended: the reported progress value after a batch is the last
window's LossVector divided elementwise by the FULL batch length
`len(T_ys)`. -/
theorem C5_report_divides_by_full_batch (B : BatchIn) (st : BatchOut)
    (rep : List V) (h : processBatch B = PyResult.ok (st, rep)) :
    ∃ l, st.lossT = some l ∧
      rep = l.map (fun v => vdivZ v (B.T_ys.length : ℤ)) := by
  rw [processBatch, reportStep] at h
  split at h
  · exact PyResult.noConfusion h
  · split at h
    · exact PyResult.noConfusion h
    · rename_i l hl
      rw [PyResult.ok.injEq, Prod.mk.injEq] at h
      obtain ⟨h1, h2⟩ := h
      refine ⟨l, ?_, h2.symm⟩
      rw [← h1]
      exact hl

/-- Witness for C5 on `exampleAsc`. -/
theorem C5_report_divides_by_full_batch_witness :
    processBatch exampleAsc = PyResult.ok (ascOut, [V.num (1 / 2)]) ∧
    ∃ l, ascOut.lossT = some l ∧
      [V.num (1 / 2)] = l.map (fun v => vdivZ v (exampleAsc.T_ys.length : ℤ)) := by
  have h : processBatch exampleAsc = PyResult.ok (ascOut, [V.num (1 / 2)]) := by
    simp [processBatch, reportStep, runWindows, stepWindow, advanceIFirst,
      advanceFuel, windowStarts, List.range', initBatchOut, segOfT, segTys,
      npClipMax, calc_loss, fastPath, fastEntry, raggedPath, raggedEntry,
      raggedTerms, critBatch, critSample, sliceTime, pyTake, l1, vdivZ, vsum,
      vadd, vmul, exampleAsc, zeros10, ones10, ascOut]
    norm_num
  exact ⟨h, C5_report_divides_by_full_batch exampleAsc ascOut [V.num (1 / 2)] h⟩

/-- C10: a batch whose very first window is already degenerate
(`min(l_target, T_max) < 5`, e.g. `T_max < 5`) breaks out of the window
loop with `loss_t` still `None`, and the training loop then raises (the
`AttributeError` of `None.cpu()`) at the post-batch progress-report step
rather than skipping the batch silently. -/
theorem C10_first_window_degenerate_crashes (B : BatchIn)
    (h : min B.lT B.Ttot < 5) :
    processBatch B = PyResult.raise PyErr.attributeError := by
  rw [processBatch]
  rcases hn : (B.Ttot + B.lT - 1) / B.lT with _ | n
  · rw [windowStarts, hn]
    rfl
  · rw [windowStarts, hn,
      show List.range' 0 (n + 1) B.lT = 0 :: List.range' (0 + B.lT) n B.lT
        from rfl,
      runWindows_break B initBatchOut 0 _ (by simpa using h)]
    rfl

/-- Witness for C10 on `exampleShort` (`l_target = 4 < 5`). -/
theorem C10_first_window_degenerate_crashes_witness :
    min exampleShort.lT exampleShort.Ttot < 5 ∧
    processBatch exampleShort = PyResult.raise PyErr.attributeError :=
  ⟨by decide, C10_first_window_degenerate_crashes exampleShort (by decide)⟩

/-- C1 counterexample: with DESCENDING `T_ys = [10, 4]`, the cursor
advance for a window starting at `t = 4` leaves `i_first = 0`, yet sample
`1 ≥ i_first` has `T_ys[1] = 4 ≤ 4` — the claimed invariant
`∀ i ≥ i_first, T_ys[i] > t` fails.  Moreover, in the claimed scenario
(`l_target = 4`) every window's target extent is `4 < 5`, so the loop
breaks immediately at `t = 0`: no window is processed (no model call,
only the entered window `(0, 0)` is recorded), contradicting
"the window at t=0 is active for both samples". -/
theorem C1_counterexample :
    advanceIFirst exampleDesc.T_ys 2 4 0 = 0 ∧
    (0 : ℕ) ≤ 1 ∧ (1 : ℕ) < exampleDesc.T_ys.length ∧
    ¬ ((4 : ℤ) < exampleDesc.T_ys.getD 1 0) ∧
    (runWindows exampleDesc (windowStarts exampleDesc.Ttot exampleDesc.lT)
      initBatchOut).modelCalls = 0 ∧
    (runWindows exampleDesc (windowStarts exampleDesc.Ttot exampleDesc.lT)
      initBatchOut).trace = [(0, 0)] := by
  refine ⟨by decide, by decide, by decide, by decide, ?_, ?_⟩ <;>
    simp [runWindows, stepWindow, advanceIFirst, advanceFuel, windowStarts,
      List.range', initBatchOut, exampleDesc]

/-- C1 amended: the batch-shrink invariant holds for ASCENDING `T_ys`
(shortest sequences first — what the `[i_first:]` suffix slicing
requires): for every window `(t, i_first)` entered by the loop,
`T_ys[i] ≤ t` for all `i < i_first` and `T_ys[i] > t` for all
`i_first ≤ i < N`.  (For the example's lengths `4` and `10` this requires
ascending order `[4, 10]` and a viable `l_target ≥ 5`; with the claimed
`l_target = 4` the loop breaks at once since `4 < 5`.) -/
theorem C1_shrink_invariant_ascending (B : BatchIn)
    (hs : B.T_ys.Pairwise (· ≤ ·)) (hlen : B.T_ys.length = B.y.length) :
    ∀ p ∈ (runWindows B (windowStarts B.Ttot B.lT) initBatchOut).trace,
      (∀ j < p.2, B.T_ys.getD j 0 ≤ (p.1 : ℤ)) ∧
      (∀ j, p.2 ≤ j → j < B.T_ys.length → (p.1 : ℤ) < B.T_ys.getD j 0) := by
  apply runWindows_trace_inv B hs hlen
  · exact windowStarts_pairwise B.Ttot B.lT
  · intro p hp
    exact absurd hp (List.not_mem_nil p)
  · intro j t hj _
    exact absurd hj (Nat.not_lt_zero j)

/-- Witness for C1 on `exampleAsc` (`T_ys = [4, 10]`, `l_target = 5`):
the loop enters `(0, 0)` (both samples active) and `(5, 1)` (only the
length-10 sample active), and both satisfy the invariant. -/
theorem C1_shrink_invariant_ascending_witness :
    exampleAsc.T_ys.Pairwise (· ≤ ·) ∧
    (runWindows exampleAsc (windowStarts exampleAsc.Ttot exampleAsc.lT)
      initBatchOut).trace = [(0, 0), (5, 1)] ∧
    ∀ p ∈ (runWindows exampleAsc (windowStarts exampleAsc.Ttot exampleAsc.lT)
        initBatchOut).trace,
      (∀ j < p.2, exampleAsc.T_ys.getD j 0 ≤ (p.1 : ℤ)) ∧
      (∀ j, p.2 ≤ j → j < exampleAsc.T_ys.length →
        (p.1 : ℤ) < exampleAsc.T_ys.getD j 0) :=
  ⟨by decide, by decide, C1_shrink_invariant_ascending exampleAsc (by decide) rfl⟩

end DWT
